import Mathlib

/-
Verification of the conversion-orchestration subsystem of the Ambot
converter (src/ambot_aiosqlite.py; src/bot.py is a near-duplicate of the
same helpers).  The SQLite tables, the admission path of callback_router,
the finalize/refund path of async_finalize_and_update, and the per-owner
queue worker are embedded as pure Lean functions and a small-step
scheduler relation, and the frozen claims are settled against them.
-/

set_option maxRecDepth 4000

namespace Ambot

/-- Media kind of a conversion: the code branches on the string "audio",
anything else is treated as video (lines 182-196, 532-542). -/
inductive MediaKind
  | audio
  | video
deriving DecidableEq

/-- Status column of the conversions table.  The schema default is the
string done, the only updates write refunded and failed
(lines 107-117, 207-215). -/
inductive ConvStatus
  | done
  | refunded
  | failed
deriving DecidableEq

/-- One row of the users table (init_db, lines 93-105).  Dates are
modeled as day indices, timestamps as seconds; the code only ever
compares dates for equality and subtracts timestamps. -/
structure UserRow where
  coins : Int
  music_count : Int
  video_count : Int
  daily_count : Int
  daily_count_date : Option Nat
  last_conversion_at : Option Nat
deriving DecidableEq

/-- One row of the conversions table (init_db, lines 107-117). -/
structure ConvRow where
  user_id : Nat
  title : String
  typ : MediaKind
  quality : Nat
  cost : Int
  status : ConvStatus
  refunded : Bool
deriving DecidableEq

/-- The persistent store: the users table keyed by user_id, and the
conversions table as an append-only list whose indices play the role of
the AUTOINCREMENT id. -/
structure DB where
  users : Nat → Option UserRow
  conversions : List ConvRow

/-- Row inserted by INSERT OR IGNORE INTO users(user_id, username,
fullname, coins) VALUES(?,\"\",\"\",0) (line 260): all numeric columns
take their DEFAULT 0, the date and timestamp columns are NULL. -/
def emptyUserRow : UserRow :=
  { coins := 0, music_count := 0, video_count := 0, daily_count := 0
    daily_count_date := none, last_conversion_at := none }

/-- Tunables read from the environment (lines 55-57). -/
structure Config where
  DAILY_LIMIT_PER_USER : Int
  COOLDOWN_SECONDS : Int

/-- Calendar day under the fixed UTC+8 offset:
datetime.now(timezone(timedelta(hours=8))).date() (lines 255, 401)
applied to an absolute time in seconds. -/
def utc8Day (now : Nat) : Nat := (now + 8 * 3600) / 86400

/-- AUDIO_COSTS = \x7b128: 20, 192: 30, 320: 40\x7d (line 48). -/
def AUDIO_COSTS (k : Nat) : Option Int :=
  if k = 128 then some 20 else if k = 192 then some 30 else
  if k = 320 then some 40 else none

/-- VIDEO_COSTS = \x7b144: 30, 360: 50, 720: 80, 1080: 120\x7d (line 49). -/
def VIDEO_COSTS (k : Nat) : Option Int :=
  if k = 144 then some 30 else if k = 360 then some 50 else
  if k = 720 then some 80 else if k = 1080 then some 120 else none

/-- Cost resolution of callback_router lines 392-397: table lookup with
fallback to the most expensive configured tier (max of the values, 40
for audio and 120 for video). -/
def compute_cost (typ : MediaKind) (k : Nat) : Int :=
  match typ with
  | .audio => (AUDIO_COSTS k).getD 40
  | .video => (VIDEO_COSTS k).getD 120

/-- UPDATE users SET ... WHERE user_id = ?: applies f to the row when it
exists, is a no-op when it does not (SQL UPDATE matches no row). -/
def updateUser (uid : Nat) (f : UserRow → UserRow) (db : DB) : DB :=
  { db with users := fun k => if k = uid then (db.users k).map f else db.users k }

/-- INSERT of a fresh users row keyed by uid. -/
def insertUser (uid : Nat) (u : UserRow) (db : DB) : DB :=
  { db with users := fun k => if k = uid then some u else db.users k }

/-- add_coins (lines 155-158): UPDATE users SET coins = coins + ?. -/
def add_coins (uid : Nat) (amount : Int) (db : DB) : DB :=
  updateUser uid (fun u => { u with coins := u.coins + amount }) db

/-- deduct_coins (lines 165-177): SELECT coins; missing row or
coins < amount rejects without mutation; otherwise UPDATE coins - amount
and report success. -/
def deduct_coins (uid : Nat) (amount : Int) (db : DB) : DB × Bool :=
  match db.users uid with
  | none => (db, false)
  | some u =>
      if u.coins < amount then (db, false)
      else (updateUser uid (fun v => { v with coins := v.coins - amount }) db, true)

/-- refund_coins (lines 179-180) delegates to add_coins. -/
def refund_coins (uid : Nat) (amount : Int) (db : DB) : DB :=
  add_coins uid amount db

/-- increment_counter (lines 182-188). -/
def increment_counter (uid : Nat) (typ : MediaKind) (db : DB) : DB :=
  match typ with
  | .audio => updateUser uid (fun u => { u with music_count := u.music_count + 1 }) db
  | .video => updateUser uid (fun u => { u with video_count := u.video_count + 1 }) db

/-- decrement_counter (lines 190-196): CASE WHEN c>0 THEN c-1 ELSE 0 END,
a decrement clamped at zero. -/
def decrement_counter (uid : Nat) (typ : MediaKind) (db : DB) : DB :=
  match typ with
  | .audio => updateUser uid
      (fun u => { u with music_count := if 0 < u.music_count then u.music_count - 1 else 0 }) db
  | .video => updateUser uid
      (fun u => { u with video_count := if 0 < u.video_count then u.video_count - 1 else 0 }) db

/-- Point update of the conversions list at index i (UPDATE conversions
... WHERE id = ?, with list indices as ids). -/
def updateAt : List α → Nat → (α → α) → List α
  | [], _, _ => []
  | c :: cs, 0, f => f c :: cs
  | c :: cs, n + 1, f => c :: updateAt cs n f

/-- log_conversion (lines 198-205): INSERT a row whose status and
refunded columns take their defaults done and 0; returns lastrowid,
modeled as the index of the appended row. -/
def log_conversion (uid : Nat) (title : String) (typ : MediaKind) (quality : Nat)
    (cost : Int) (db : DB) : DB × Nat :=
  ({ db with conversions := db.conversions ++
      [{ user_id := uid, title := title, typ := typ, quality := quality
         cost := cost, status := .done, refunded := false }] },
   db.conversions.length)

/-- mark_conversion_refunded (lines 207-210): SET status=refunded,
refunded=1 WHERE id = ?. -/
def mark_conversion_refunded (cid : Nat) (db : DB) : DB :=
  { db with conversions :=
      updateAt db.conversions cid (fun c => { c with status := .refunded, refunded := true }) }

/-- mark_conversion_failed (lines 212-215): SET status=failed WHERE id=?
(the refunded column is left untouched). -/
def mark_conversion_failed (cid : Nat) (db : DB) : DB :=
  { db with conversions :=
      updateAt db.conversions cid (fun c => { c with status := .failed }) }

/-- get_user_rate_info (lines 244-252): returns (daily_count,
daily_count_date, last_conversion_at), with (0, None, None) for a
missing row. -/
def get_user_rate_info (uid : Nat) (db : DB) : Int × Option Nat × Option Nat :=
  match db.users uid with
  | some u => (u.daily_count, u.daily_count_date, u.last_conversion_at)
  | none => (0, none, none)

/-- bump_user_daily_count (lines 254-270): creates a blank row for a
missing user, then either resets the window to (1, today) when the
stored date differs from today, or increments the count. -/
def bump_user_daily_count (now : Nat) (uid : Nat) (db : DB) : DB :=
  let today := utc8Day now
  match db.users uid with
  | none =>
      updateUser uid (fun u => { u with daily_count := 1, daily_count_date := some today })
        (insertUser uid emptyUserRow db)
  | some u =>
      if u.daily_count_date ≠ some today then
        updateUser uid (fun v => { v with daily_count := 1, daily_count_date := some today }) db
      else
        updateUser uid (fun v => { v with daily_count := v.daily_count + 1 }) db

/-- set_user_last_conversion (lines 272-276). -/
def set_user_last_conversion (now : Nat) (uid : Nat) (db : DB) : DB :=
  updateUser uid (fun u => { u with last_conversion_at := some now }) db

/-- Outcome of the admission branch of callback_router. -/
inductive AdmitResult
  | dailyLimitExceeded
  | cooldownReject (wait : Int)
  | insufficientFunds
  | admitted (cid : Nat)
deriving DecidableEq

/-- True exactly on the admitted outcome. -/
def AdmitResult.isAdmitted : AdmitResult → Bool
  | .admitted _ => true
  | _ => false

/-- Daily count used for the limit comparison (lines 400-404): the
stored count, read as zero when the stored window date differs from the
current UTC+8 day; the stored value itself is not touched. -/
def effectiveDailyCount (now uid : Nat) (db : DB) : Int :=
  if (get_user_rate_info uid db).2.1 ≠ some (utc8Day now) then 0
  else (get_user_rate_info uid db).1

/-- Debit-and-commit tail of the admission path (lines 421-445):
deduct_coins, and on success the sequence bump_user_daily_count;
set_user_last_conversion; increment_counter; log_conversion. -/
def admission_commit (now uid : Nat) (typ : MediaKind) (quality : Nat)
    (title : String) (cost : Int) (db : DB) : DB × AdmitResult :=
  let r := deduct_coins uid cost db
  if r.2 = false then
    (r.1, .insufficientFunds)
  else
    let db1 := bump_user_daily_count now uid r.1
    let db2 := set_user_last_conversion now uid db1
    let db3 := increment_counter uid typ db2
    let r4 := log_conversion uid title typ quality cost db3
    (r4.1, .admitted r4.2)

/-- Admission path of callback_router (lines 387-445), DB-effect slice:
cost resolution, daily-limit check with reset-for-comparison, cooldown
check against utcnow, then the debit-and-commit tail.  The single
instant now feeds both the UTC+8 day and the cooldown arithmetic. -/
def callback_router (cfg : Config) (now : Nat) (uid : Nat) (typ : MediaKind)
    (quality : Nat) (title : String) (db : DB) : DB × AdmitResult :=
  let cost := compute_cost typ quality
  if cfg.DAILY_LIMIT_PER_USER ≤ effectiveDailyCount now uid db then
    (db, .dailyLimitExceeded)
  else
    match (get_user_rate_info uid db).2.2 with
    | some last_ts =>
        if (now : Int) - (last_ts : Int) < cfg.COOLDOWN_SECONDS then
          (db, .cooldownReject (cfg.COOLDOWN_SECONDS - ((now : Int) - (last_ts : Int))))
        else admission_commit now uid typ quality title cost db
    | none => admission_commit now uid typ quality title cost db

/-- The user-visible notification emitted by the finalize path. -/
inductive FinalNotice
  | deliveredFile
  | refundNotice
  | contactAdmin
  | conversionFailed (diag : String)
deriving DecidableEq

/-- async_finalize_and_update (lines 570-662), DB-effect slice.
produced says whether the blocking download yielded an artifact file,
sendOk whether send_document succeeded, and refundThrows models the
refund_coins call raising (the first statement of either refund block,
so none of the block runs).  Production failure marks the row failed
before attempting the refund, and its refund block swallows an exception
(except: pass) so the notice is the same diagnostic either way. -/
def async_finalize_and_update (uid : Nat) (typ : MediaKind) (cost : Int)
    (convId : Option Nat) (produced sendOk refundThrows : Bool) (diag : String)
    (db : DB) : DB × FinalNotice :=
  if produced then
    if sendOk then
      (db, .deliveredFile)
    else if refundThrows then
      (db, .contactAdmin)
    else
      let db1 := refund_coins uid cost db
      let db2 := decrement_counter uid typ db1
      let db3 := match convId with
        | some cid => mark_conversion_refunded cid db2
        | none => db2
      (db3, .refundNotice)
  else
    let db1 := match convId with
      | some cid => mark_conversion_failed cid db
      | none => db
    if refundThrows then
      (db1, .conversionFailed diag)
    else
      let db2 := refund_coins uid cost db1
      let db3 := decrement_counter uid typ db2
      (db3, .conversionFailed diag)

/-! Per-owner queue and global gate: small-step scheduler model.

The in-memory phases of a job, translated from user_queue_worker
(lines 455-491) and blocking_download_and_process (lines 494-568):
a job sits queued in its owners asyncio.Queue, is executing while the
worker holds the global semaphore around run_in_executor, is finalizing
once the thread has scheduled async_finalize_and_update via
loop.create_task and returned (the await completes and the semaphore is
released at that point), and is finished when the finalizer task has
run to completion. -/

/-- In-memory phase of one job. -/
inductive JPhase
  | queued
  | executing
  | finalizing
  | finished
deriving DecidableEq

/-- Progress rank of a phase; transitions only ever increase it. -/
def JPhase.rank : JPhase → Nat
  | .queued => 0
  | .executing => 1
  | .finalizing => 2
  | .finished => 3

/-- Number of jobs currently inside the semaphore-guarded executor call. -/
def execCount (phases : List JPhase) : Nat :=
  phases.countP (fun p => decide (p = JPhase.executing))

/-- One scheduler step.  jobs lists the owner of each job in global
admission order (same-owner jobs appear in their FIFO submission order,
the order of asyncio.Queue).  Guards of start: the job is still queued;
every earlier job of the same owner has rank at least finalizing,
because the single per-owner worker has awaited run_in_executor for it
(line 487) and the threads last action before returning is
loop.create_task of the finalizer (line 567); and strictly fewer than
cap jobs hold the global semaphore (line 460). -/
inductive WorkerStep (cap : Nat) (jobs : List Nat) : List JPhase → List JPhase → Prop
  | start (phases : List JPhase) (i : Nat)
      (hq : phases.get? i = some JPhase.queued)
      (hfifo : ∀ j, j < i → jobs.get? j = jobs.get? i →
        ∀ p, phases.get? j = some p → 2 ≤ p.rank)
      (hsem : execCount phases < cap) :
      WorkerStep cap jobs phases (updateAt phases i (fun _ => JPhase.executing))
  | finishExec (phases : List JPhase) (i : Nat)
      (h : phases.get? i = some JPhase.executing) :
      WorkerStep cap jobs phases (updateAt phases i (fun _ => JPhase.finalizing))
  | finishFinal (phases : List JPhase) (i : Nat)
      (h : phases.get? i = some JPhase.finalizing) :
      WorkerStep cap jobs phases (updateAt phases i (fun _ => JPhase.finished))

/-- States reachable by the scheduler from the all-queued start. -/
inductive Reach (cap : Nat) (jobs : List Nat) : List JPhase → Prop
  | init : Reach cap jobs (List.replicate jobs.length JPhase.queued)
  | step (p q : List JPhase) : Reach cap jobs p → WorkerStep cap jobs p q → Reach cap jobs q

/-- Per-owner serialization: whenever a later job of an owner has left
the queued phase, every earlier job of the same owner is already past
its executing phase (rank at least finalizing). -/
def fifoSerial (jobs : List Nat) (phases : List JPhase) : Prop :=
  ∀ i j p q, i < j → jobs.get? i = jobs.get? j →
    phases.get? i = some p → phases.get? j = some q →
    q ≠ JPhase.queued → 2 ≤ p.rank

/-- Claim C2 read literally: once a later same-owner job has started,
the earlier job is fully finished, its delivery/refund finalization
included. -/
def ownerFullySerial (cap : Nat) (jobs : List Nat) : Prop :=
  ∀ phases, Reach cap jobs phases →
    ∀ i j q, i < j → jobs.get? i = jobs.get? j →
      phases.get? j = some q → q ≠ JPhase.queued →
      phases.get? i = some JPhase.finished

/-! Concurrent deduct_coins: per-owner serialization of check-then-debit.

deduct_coins (lines 165-177) runs SELECT coins, the balance check, and
UPDATE coins = coins - amount as separate awaited statements.  It is
reached only from the admission path of callback_router, which runs as
an update handler of the application built at line 785 with the default
dispatch of the framework: updates are processed one at a time, each
handler awaited to completion before the next update is taken, so two
admission requests that arrive concurrently at the transport execute
back to back in some order.  A call is modeled as a two-step program -
the read step records the shared balance, the write step applies the
check to the recorded value and, on success, subtracts from the current
balance (the UPDATE is relative) - so that the dispatch discipline can
be stated as a property of the schedules: the producible schedules run
one whole call before the other starts. -/

/-- Progress of one in-flight deduct_coins call. -/
structure DeductCall where
  readVal : Option Int
  result : Option Bool
deriving DecidableEq

/-- Two concurrent deduct_coins calls over one shared balance. -/
structure RaceState where
  coins : Int
  a : DeductCall
  b : DeductCall
deriving DecidableEq

/-- Run one statement of a deduct_coins call: first the SELECT
(lines 167-169), then the check plus UPDATE (lines 173-177); a call
that has returned does nothing. -/
def deductStepOn (cost : Int) (coins : Int) (c : DeductCall) : Int × DeductCall :=
  match c.readVal, c.result with
  | none, _ => (coins, { c with readVal := some coins })
  | some v, none =>
      if v < cost then (coins, { c with result := some false })
      else (coins - cost, { c with result := some true })
  | some _, some _ => (coins, c)

/-- Scheduler choice: true steps call a, false steps call b. -/
def raceStep (cost : Int) (s : RaceState) (pickA : Bool) : RaceState :=
  if pickA then
    let r := deductStepOn cost s.coins s.a
    { s with coins := r.1, a := r.2 }
  else
    let r := deductStepOn cost s.coins s.b
    { s with coins := r.1, b := r.2 }

/-- Run a whole interleaving of the two calls. -/
def runRace (cost : Int) (s : RaceState) : List Bool → RaceState
  | [] => s
  | pick :: rest => runRace cost (raceStep cost s pick) rest

/-- Fresh pair of concurrent calls over an initial balance. -/
def raceInit (bal : Int) : RaceState :=
  { coins := bal, a := { readVal := none, result := none }
    b := { readVal := none, result := none } }

/-- The schedules the update dispatcher can produce: each handler runs
to completion before the next update is processed, so one call takes
both of its steps before the other starts; true runs call a first. -/
def sequentialSchedule : Bool → List Bool
  | true => [true, true, false, false]
  | false => [false, false, true, true]

/-! Operation sequences for the ledger and counter invariants. -/

/-- The operations of claim C1: an admission attempt, and the two
refund-protocol finalizations (production failure, delivery failure).
The finalize operations read the jobs owner, kind and cost from its
conversions row, the same values the code captures in the state dict at
admission; the orchestration schedules exactly one finalizer task per
conversion (line 567), so a finalize of an already-finalized row is a
no-op here. -/
inductive LedgerOp
  | admitOp (now uid : Nat) (typ : MediaKind) (quality : Nat) (title : String)
  | prodFailOp (cid : Nat) (diag : String)
  | deliverFailOp (cid : Nat)

/-- Apply one ledger operation. -/
def applyLedgerOp (cfg : Config) (db : DB) : LedgerOp → DB
  | .admitOp now uid typ quality title =>
      (callback_router cfg now uid typ quality title db).1
  | .prodFailOp cid diag =>
      match db.conversions.get? cid with
      | some c =>
          if c.status = .done then
            (async_finalize_and_update c.user_id c.typ c.cost (some cid)
              false false false diag db).1
          else db
      | none => db
  | .deliverFailOp cid =>
      match db.conversions.get? cid with
      | some c =>
          if c.status = .done then
            (async_finalize_and_update c.user_id c.typ c.cost (some cid)
              true false false "" db).1
          else db
      | none => db

/-- Fold a sequence of ledger operations over the store. -/
def runLedger (cfg : Config) (db : DB) : List LedgerOp → DB
  | [] => db
  | op :: rest => runLedger cfg (applyLedgerOp cfg db op) rest

/-- Balance of an account, zero for a missing row. -/
def coinsOf (db : DB) (uid : Nat) : Int :=
  match db.users uid with
  | some u => u.coins
  | none => 0

/-- Contribution of one conversions row to the outstanding debits of
uid: its cost while the row still has the creation-default status done
(the status the row keeps through the queued, running and delivered
stages), zero once it is refunded or failed. -/
def doneCost (uid : Nat) (c : ConvRow) : Int :=
  if c.user_id = uid ∧ c.status = ConvStatus.done then c.cost else 0

/-- Sum of the outstanding (non-refunded, non-failed) job costs of uid. -/
def doneSum (db : DB) (uid : Nat) : Int :=
  (db.conversions.map (doneCost uid)).sum

/-- Well-formedness: every conversions row points at an existing users
row (the code only inserts a conversion after deduct_coins succeeded
for that user, and users are never deleted). -/
def ConvUsersExist (db : DB) : Prop :=
  ∀ c ∈ db.conversions, (db.users c.user_id).isSome = true

/-- The counter operations of claim C10: the admission-time increment
and the refund-time decrement. -/
inductive CounterOp
  | incOp (uid : Nat) (typ : MediaKind)
  | decOp (uid : Nat) (typ : MediaKind)

/-- Apply one counter operation. -/
def applyCounterOp (db : DB) : CounterOp → DB
  | .incOp uid typ => increment_counter uid typ db
  | .decOp uid typ => decrement_counter uid typ db

/-- Fold a sequence of counter operations. -/
def runCounterOps (db : DB) : List CounterOp → DB
  | [] => db
  | op :: rest => runCounterOps (applyCounterOp db op) rest

/-- Decidable check that the lifetime counters of uid are nonnegative. -/
def countersOkAt (db : DB) (uid : Nat) : Bool :=
  match db.users uid with
  | some u => decide (0 ≤ u.music_count) && decide (0 ≤ u.video_count)
  | none => true

/-- Status of the conversions row with id cid. -/
def convStatus (db : DB) (cid : Nat) : Option ConvStatus :=
  (db.conversions.get? cid).map ConvRow.status

/-! Helper lemmas. -/

theorem updateAt_length (l : List α) (i : Nat) (f : α → α) :
    (updateAt l i f).length = l.length := by
  induction l generalizing i with
  | nil => rfl
  | cons c cs ih =>
    cases i with
    | zero => rfl
    | succ n => simp [updateAt, ih]

theorem get?_updateAt (l : List α) (i j : Nat) (f : α → α) :
    (updateAt l i f).get? j = if j = i then (l.get? j).map f else l.get? j := by
  induction l generalizing i j with
  | nil => simp [updateAt]
  | cons c cs ih =>
    cases i with
    | zero =>
      cases j with
      | zero => simp [updateAt]
      | succ m => simp [updateAt]
    | succ n =>
      cases j with
      | zero => simp [updateAt]
      | succ m => simpa [updateAt, Nat.succ_eq_add_one] using ih n m

theorem countP_updateAt (p : α → Bool) (l : List α) (i : Nat) (f : α → α) (a : α)
    (h : l.get? i = some a) :
    (updateAt l i f).countP p + (if p a then 1 else 0)
      = l.countP p + (if p (f a) then 1 else 0) := by
  induction l generalizing i with
  | nil => simp at h
  | cons c cs ih =>
    cases i with
    | zero =>
      simp only [List.get?] at h
      cases h
      simp [updateAt, List.countP_cons]
      omega
    | succ n =>
      simp only [List.get?] at h
      have := ih n h
      simp [updateAt, List.countP_cons]
      omega

theorem sum_map_updateAt (g : α → Int) (l : List α) (i : Nat) (f : α → α) (a : α)
    (h : l.get? i = some a) :
    ((updateAt l i f).map g).sum + g a = (l.map g).sum + g (f a) := by
  induction l generalizing i with
  | nil => simp at h
  | cons c cs ih =>
    cases i with
    | zero =>
      simp only [List.get?] at h
      cases h
      simp [updateAt]
      ring
    | succ n =>
      simp only [List.get?] at h
      have := ih n h
      simp only [updateAt, List.map_cons, List.sum_cons]
      omega

theorem updateUser_conversions (uid : Nat) (f : UserRow → UserRow) (db : DB) :
    (updateUser uid f db).conversions = db.conversions := rfl

theorem updateUser_users_self (uid : Nat) (f : UserRow → UserRow) (db : DB) :
    (updateUser uid f db).users uid = (db.users uid).map f := by
  simp [updateUser]

theorem updateUser_users_other (uid k : Nat) (f : UserRow → UserRow) (db : DB)
    (h : k ≠ uid) : (updateUser uid f db).users k = db.users k := by
  simp [updateUser, h]

theorem isSome_updateUser (uid k : Nat) (f : UserRow → UserRow) (db : DB) :
    ((updateUser uid f db).users k).isSome = (db.users k).isSome := by
  by_cases h : k = uid
  · subst h; simp [updateUser]
  · simp [updateUser, h]

theorem coinsOf_updateUser_keep (uid : Nat) (f : UserRow → UserRow) (db : DB)
    (hf : ∀ u, (f u).coins = u.coins) (k : Nat) :
    coinsOf (updateUser uid f db) k = coinsOf db k := by
  by_cases h : k = uid
  · subst h
    simp only [coinsOf, updateUser_users_self]
    cases db.users k with
    | none => rfl
    | some u => simp [hf]
  · simp [coinsOf, updateUser_users_other uid k f db h]

theorem coinsOf_add_coins_self (uid : Nat) (amt : Int) (db : DB)
    (h : (db.users uid).isSome = true) :
    coinsOf (add_coins uid amt db) uid = coinsOf db uid + amt := by
  simp only [add_coins, coinsOf, updateUser_users_self]
  cases hu : db.users uid with
  | none => rw [hu] at h; simp at h
  | some u => simp

theorem coinsOf_add_coins_other (uid k : Nat) (amt : Int) (db : DB) (h : k ≠ uid) :
    coinsOf (add_coins uid amt db) k = coinsOf db k := by
  simp [add_coins, coinsOf, updateUser_users_other uid k _ db h]

theorem doneSum_updateUser (uid : Nat) (f : UserRow → UserRow) (db : DB) (k : Nat) :
    doneSum (updateUser uid f db) k = doneSum db k := rfl

theorem doneSum_insertUser (uid : Nat) (u : UserRow) (db : DB) (k : Nat) :
    doneSum (insertUser uid u db) k = doneSum db k := rfl

theorem doneSum_log (uid : Nat) (title : String) (typ : MediaKind) (q : Nat)
    (cost : Int) (db : DB) (k : Nat) :
    doneSum (log_conversion uid title typ q cost db).1 k
      = doneSum db k + (if uid = k then cost else 0) := by
  simp only [doneSum, log_conversion, List.map_append, List.sum_append,
    List.map_cons, List.map_nil, List.sum_cons, List.sum_nil, Int.add_zero]
  by_cases h : uid = k <;> simp [doneCost, h]

theorem doneSum_mark_failed (cid : Nat) (db : DB) (c : ConvRow)
    (h : db.conversions.get? cid = some c) (k : Nat) :
    doneSum (mark_conversion_failed cid db) k = doneSum db k - doneCost k c := by
  have hs := sum_map_updateAt (doneCost k) db.conversions cid
    (fun r => { r with status := .failed }) c h
  have hz : doneCost k { c with status := ConvStatus.failed } = 0 := by
    simp [doneCost]
  simp only [mark_conversion_failed, doneSum] at *
  omega

theorem doneSum_mark_refunded (cid : Nat) (db : DB) (c : ConvRow)
    (h : db.conversions.get? cid = some c) (k : Nat) :
    doneSum (mark_conversion_refunded cid db) k = doneSum db k - doneCost k c := by
  have hs := sum_map_updateAt (doneCost k) db.conversions cid
    (fun r => { r with status := .refunded, refunded := true }) c h
  have hz : doneCost k { c with status := ConvStatus.refunded, refunded := true } = 0 := by
    simp [doneCost]
  simp only [mark_conversion_refunded, doneSum] at *
  omega

theorem convStatus_mark_failed_self (cid : Nat) (db : DB) (c : ConvRow)
    (h : db.conversions.get? cid = some c) :
    convStatus (mark_conversion_failed cid db) cid = some ConvStatus.failed := by
  simp only [convStatus, mark_conversion_failed]
  rw [get?_updateAt]
  simp [h]
  exact ⟨c, by simpa using h⟩

theorem convStatus_mark_refunded_self (cid : Nat) (db : DB) (c : ConvRow)
    (h : db.conversions.get? cid = some c) :
    convStatus (mark_conversion_refunded cid db) cid = some ConvStatus.refunded := by
  simp only [convStatus, mark_conversion_refunded]
  rw [get?_updateAt]
  simp [h]
  exact ⟨c, by simpa using h⟩

theorem mem_updateAt (l : List α) (i : Nat) (f : α → α) (x : α)
    (hx : x ∈ updateAt l i f) : x ∈ l ∨ ∃ a ∈ l, x = f a := by
  induction l generalizing i with
  | nil => simp [updateAt] at hx
  | cons c cs ih =>
    cases i with
    | zero =>
      rcases List.mem_cons.mp hx with rfl | hx2
      · exact Or.inr ⟨c, List.mem_cons_self c cs, rfl⟩
      · exact Or.inl (List.mem_cons_of_mem c hx2)
    | succ n =>
      rcases List.mem_cons.mp hx with rfl | hx2
      · exact Or.inl (List.mem_cons_self x cs)
      · rcases ih n hx2 with h | ⟨a, ha, rfl⟩
        · exact Or.inl (List.mem_cons_of_mem c h)
        · exact Or.inr ⟨a, List.mem_cons_of_mem c ha, rfl⟩

theorem isSome_insertUser (uid k : Nat) (u : UserRow) (db : DB)
    (h : (db.users k).isSome = true) : ((insertUser uid u db).users k).isSome = true := by
  by_cases hk : k = uid <;> simp [insertUser, hk, h]

theorem isSome_bump (now uid k : Nat) (db : DB) (h : (db.users k).isSome = true) :
    ((bump_user_daily_count now uid db).users k).isSome = true := by
  unfold bump_user_daily_count
  cases hu : db.users uid with
  | none => simp only []; rw [isSome_updateUser]; exact isSome_insertUser uid k _ db h
  | some u =>
    simp only []
    split <;> (rw [isSome_updateUser]; exact h)

theorem isSome_bump_self (now uid : Nat) (db : DB) :
    ((bump_user_daily_count now uid db).users uid).isSome = true := by
  unfold bump_user_daily_count
  cases hu : db.users uid with
  | none =>
    simp only []
    rw [isSome_updateUser]
    simp [insertUser]
  | some u =>
    simp only []
    split <;> (rw [isSome_updateUser]; simp [hu])

theorem conversions_bump (now uid : Nat) (db : DB) :
    (bump_user_daily_count now uid db).conversions = db.conversions := by
  unfold bump_user_daily_count
  cases db.users uid with
  | none => rfl
  | some u => simp only []; split <;> rfl

theorem conversions_increment (uid : Nat) (typ : MediaKind) (db : DB) :
    (increment_counter uid typ db).conversions = db.conversions := by
  cases typ <;> rfl

theorem conversions_decrement (uid : Nat) (typ : MediaKind) (db : DB) :
    (decrement_counter uid typ db).conversions = db.conversions := by
  cases typ <;> rfl

theorem isSome_increment (uid : Nat) (typ : MediaKind) (k : Nat) (db : DB) :
    ((increment_counter uid typ db).users k).isSome = (db.users k).isSome := by
  cases typ <;> apply isSome_updateUser

theorem isSome_decrement (uid : Nat) (typ : MediaKind) (k : Nat) (db : DB) :
    ((decrement_counter uid typ db).users k).isSome = (db.users k).isSome := by
  cases typ <;> apply isSome_updateUser

theorem coinsOf_bump (now uid : Nat) (db : DB) (k : Nat) :
    coinsOf (bump_user_daily_count now uid db) k = coinsOf db k := by
  unfold bump_user_daily_count
  cases hu : db.users uid with
  | none =>
    simp only []
    by_cases hk : k = uid
    · subst hk
      simp [coinsOf, updateUser, insertUser, hu, emptyUserRow]
    · simp [coinsOf, updateUser, insertUser, hk]
  | some u =>
    simp only []
    split <;> (apply coinsOf_updateUser_keep; intro v; rfl)

theorem coinsOf_set_last (now uid : Nat) (db : DB) (k : Nat) :
    coinsOf (set_user_last_conversion now uid db) k = coinsOf db k := by
  apply coinsOf_updateUser_keep
  intro v
  rfl

theorem coinsOf_increment (uid : Nat) (typ : MediaKind) (db : DB) (k : Nat) :
    coinsOf (increment_counter uid typ db) k = coinsOf db k := by
  cases typ <;> (apply coinsOf_updateUser_keep; intro v; rfl)

theorem coinsOf_decrement (uid : Nat) (typ : MediaKind) (db : DB) (k : Nat) :
    coinsOf (decrement_counter uid typ db) k = coinsOf db k := by
  cases typ <;> (apply coinsOf_updateUser_keep; intro v; rfl)

/-- Daily-limit rejection (lines 404-407) leaves the store untouched. -/
theorem callback_router_daily (cfg : Config) (now uid : Nat) (typ : MediaKind)
    (q : Nat) (t : String) (db : DB)
    (h : cfg.DAILY_LIMIT_PER_USER ≤ effectiveDailyCount now uid db) :
    callback_router cfg now uid typ q t db = (db, .dailyLimitExceeded) := by
  simp [callback_router, h]

/-- Cooldown rejection (lines 408-419) leaves the store untouched. -/
theorem callback_router_cooldown (cfg : Config) (now uid : Nat) (typ : MediaKind)
    (q : Nat) (t : String) (db : DB) (l : Nat)
    (hd : ¬ cfg.DAILY_LIMIT_PER_USER ≤ effectiveDailyCount now uid db)
    (hl : (get_user_rate_info uid db).2.2 = some l)
    (hc : (now : Int) - (l : Int) < cfg.COOLDOWN_SECONDS) :
    callback_router cfg now uid typ q t db
      = (db, .cooldownReject (cfg.COOLDOWN_SECONDS - ((now : Int) - (l : Int)))) := by
  simp [callback_router, hd, hl, hc]

/-- When neither rate check fires, the admission path is exactly the
debit-and-commit tail. -/
theorem callback_router_commit (cfg : Config) (now uid : Nat) (typ : MediaKind)
    (q : Nat) (t : String) (db : DB)
    (hd : ¬ cfg.DAILY_LIMIT_PER_USER ≤ effectiveDailyCount now uid db)
    (hc : ∀ l, (get_user_rate_info uid db).2.2 = some l →
        ¬ ((now : Int) - (l : Int) < cfg.COOLDOWN_SECONDS)) :
    callback_router cfg now uid typ q t db
      = admission_commit now uid typ q t (compute_cost typ q) db := by
  simp only [callback_router, hd, if_false]
  cases hl : (get_user_rate_info uid db).2.2 with
  | none => rfl
  | some l => simp [hc l hl]

/-- The two possible outcomes of the debit-and-commit tail: a rejected
debit with the store untouched, or the full commit chain
debit; bump; stamp; increment; log. -/
theorem admission_commit_cases (now uid : Nat) (typ : MediaKind) (q : Nat)
    (t : String) (cost : Int) (db : DB) :
    admission_commit now uid typ q t cost db = (db, .insufficientFunds)
    ∨ ∃ u, db.users uid = some u ∧ ¬(u.coins < cost) ∧
        admission_commit now uid typ q t cost db =
          ((log_conversion uid t typ q cost
            (increment_counter uid typ
              (set_user_last_conversion now uid
                (bump_user_daily_count now uid
                  (updateUser uid (fun v => { v with coins := v.coins - cost }) db))))).1,
           .admitted (log_conversion uid t typ q cost
            (increment_counter uid typ
              (set_user_last_conversion now uid
                (bump_user_daily_count now uid
                  (updateUser uid (fun v => { v with coins := v.coins - cost }) db))))).2) := by
  unfold admission_commit
  cases hu : db.users uid with
  | none => left; simp [deduct_coins, hu]
  | some u =>
    by_cases hlt : u.coins < cost
    · left; simp [deduct_coins, hu, hlt]
    · right
      exact ⟨u, rfl, hlt, by simp [deduct_coins, hu, hlt]⟩

/-- The two possible outcomes of the admission path on the store: a
rejected request leaves it untouched, an admitted one runs the commit
chain with the resolved cost. -/
theorem callback_router_cases (cfg : Config) (now uid : Nat) (typ : MediaKind)
    (q : Nat) (t : String) (db : DB) :
    (callback_router cfg now uid typ q t db).1 = db
    ∨ ∃ u, db.users uid = some u ∧ ¬(u.coins < compute_cost typ q) ∧
        (callback_router cfg now uid typ q t db).1 =
          (log_conversion uid t typ q (compute_cost typ q)
            (increment_counter uid typ
              (set_user_last_conversion now uid
                (bump_user_daily_count now uid
                  (updateUser uid
                    (fun v => { v with coins := v.coins - compute_cost typ q }) db))))).1 := by
  by_cases hd : cfg.DAILY_LIMIT_PER_USER ≤ effectiveDailyCount now uid db
  · left; rw [callback_router_daily cfg now uid typ q t db hd]
  · by_cases hcool : ∃ l, (get_user_rate_info uid db).2.2 = some l
        ∧ (now : Int) - (l : Int) < cfg.COOLDOWN_SECONDS
    · obtain ⟨l, hl, hc⟩ := hcool
      left; rw [callback_router_cooldown cfg now uid typ q t db l hd hl hc]
    · have hc : ∀ l, (get_user_rate_info uid db).2.2 = some l →
          ¬ ((now : Int) - (l : Int) < cfg.COOLDOWN_SECONDS) := by
        intro l hl hlt
        exact hcool ⟨l, hl, hlt⟩
      rw [callback_router_commit cfg now uid typ q t db hd hc]
      rcases admission_commit_cases now uid typ q t (compute_cost typ q) db with h |
        ⟨u, hu, hlt, he⟩
      · left; rw [h]
      · right; exact ⟨u, hu, hlt, by rw [he]⟩

theorem conversions_set_last (now uid : Nat) (db : DB) :
    (set_user_last_conversion now uid db).conversions = db.conversions := rfl

theorem conversions_chain (now uid : Nat) (typ : MediaKind) (f : UserRow → UserRow)
    (db : DB) :
    (increment_counter uid typ (set_user_last_conversion now uid
      (bump_user_daily_count now uid (updateUser uid f db)))).conversions
      = db.conversions := by
  rw [conversions_increment, conversions_set_last, conversions_bump, updateUser_conversions]

theorem isSome_chain (now uid : Nat) (typ : MediaKind) (f : UserRow → UserRow)
    (db : DB) (k : Nat) (h : (db.users k).isSome = true) :
    ((increment_counter uid typ (set_user_last_conversion now uid
      (bump_user_daily_count now uid (updateUser uid f db)))).users k).isSome = true := by
  rw [isSome_increment]
  unfold set_user_last_conversion
  rw [isSome_updateUser]
  apply isSome_bump
  rw [isSome_updateUser]
  exact h

theorem coinsOf_debit (uid : Nat) (cost : Int) (db : DB) (u : UserRow)
    (hu : db.users uid = some u) (k : Nat) :
    coinsOf (updateUser uid (fun v => { v with coins := v.coins - cost }) db) k
      = coinsOf db k - (if k = uid then cost else 0) := by
  by_cases hk : k = uid
  · subst hk
    simp [coinsOf, updateUser_users_self, hu]
  · simp [coinsOf, updateUser_users_other _ _ _ _ hk, hk]

theorem commit_chain_coins (now uid : Nat) (typ : MediaKind) (q : Nat) (t : String)
    (cost : Int) (db : DB) (k : Nat) :
    coinsOf (log_conversion uid t typ q cost
        (increment_counter uid typ
          (set_user_last_conversion now uid
            (bump_user_daily_count now uid db)))).1 k = coinsOf db k := by
  have h0 : coinsOf (log_conversion uid t typ q cost
      (increment_counter uid typ
        (set_user_last_conversion now uid
          (bump_user_daily_count now uid db)))).1 k
      = coinsOf (increment_counter uid typ
          (set_user_last_conversion now uid
            (bump_user_daily_count now uid db))) k := rfl
  rw [h0, coinsOf_increment, coinsOf_set_last, coinsOf_bump]

theorem doneSum_congr (db1 db2 : DB) (h : db1.conversions = db2.conversions) (k : Nat) :
    doneSum db1 k = doneSum db2 k := by
  unfold doneSum
  rw [h]

theorem commit_chain_doneSum (now uid : Nat) (typ : MediaKind) (q : Nat) (t : String)
    (cost : Int) (f : UserRow → UserRow) (db : DB) (k : Nat) :
    doneSum (log_conversion uid t typ q cost
        (increment_counter uid typ
          (set_user_last_conversion now uid
            (bump_user_daily_count now uid (updateUser uid f db))))).1 k
      = doneSum db k + (if uid = k then cost else 0) := by
  rw [doneSum_log]
  congr 1
  apply doneSum_congr
  exact conversions_chain now uid typ f db

/-- Coin plus outstanding-cost identity for one admission attempt. -/
theorem ledger_identity_router (cfg : Config) (now uid : Nat) (typ : MediaKind)
    (q : Nat) (t : String) (db : DB) (k : Nat) :
    coinsOf (callback_router cfg now uid typ q t db).1 k
      + doneSum (callback_router cfg now uid typ q t db).1 k
      = coinsOf db k + doneSum db k := by
  rcases callback_router_cases cfg now uid typ q t db with h | ⟨u, hu, hlt, h⟩
  · rw [h]
  · rw [h, commit_chain_coins, commit_chain_doneSum,
      coinsOf_debit uid (compute_cost typ q) db u hu k]
    by_cases hk : k = uid
    · subst hk
      simp only [if_pos rfl]
      omega
    · have hk2 : ¬ (uid = k) := fun hh => hk hh.symm
      simp only [if_neg hk, if_neg hk2]
      omega

/-- Reduction of the production-failure finalize to its helper chain. -/
theorem finalize_prodfail_eq (uid2 : Nat) (typ2 : MediaKind) (cost2 : Int)
    (cid : Nat) (diag : String) (db : DB) :
    (async_finalize_and_update uid2 typ2 cost2 (some cid) false false false diag db).1
      = decrement_counter uid2 typ2
          (refund_coins uid2 cost2 (mark_conversion_failed cid db)) := rfl

/-- Reduction of the delivery-failure finalize to its helper chain. -/
theorem finalize_deliverfail_eq (uid2 : Nat) (typ2 : MediaKind) (cost2 : Int)
    (cid : Nat) (diag : String) (db : DB) :
    (async_finalize_and_update uid2 typ2 cost2 (some cid) true false false diag db).1
      = mark_conversion_refunded cid
          (decrement_counter uid2 typ2 (refund_coins uid2 cost2 db)) := rfl

/-- Coin plus outstanding-cost identity for a production-failure
finalize of a still-outstanding row. -/
theorem ledger_identity_prodfail (db : DB) (cid : Nat) (c : ConvRow) (diag : String)
    (h : db.conversions.get? cid = some c) (hd : c.status = ConvStatus.done)
    (hu : (db.users c.user_id).isSome = true) (k : Nat) :
    coinsOf (async_finalize_and_update c.user_id c.typ c.cost (some cid)
        false false false diag db).1 k
      + doneSum (async_finalize_and_update c.user_id c.typ c.cost (some cid)
        false false false diag db).1 k
      = coinsOf db k + doneSum db k := by
  rw [finalize_prodfail_eq]
  have hcoins : coinsOf (decrement_counter c.user_id c.typ
      (refund_coins c.user_id c.cost (mark_conversion_failed cid db))) k
      = coinsOf db k + (if k = c.user_id then c.cost else 0) := by
    rw [coinsOf_decrement]
    by_cases hk : k = c.user_id
    · subst hk
      have hu2 : ((mark_conversion_failed cid db).users c.user_id).isSome = true := hu
      rw [refund_coins, coinsOf_add_coins_self _ _ _ hu2]
      have h2 : coinsOf (mark_conversion_failed cid db) c.user_id
          = coinsOf db c.user_id := rfl
      rw [h2]
      simp
    · rw [refund_coins, coinsOf_add_coins_other _ _ _ _ hk]
      have h2 : coinsOf (mark_conversion_failed cid db) k = coinsOf db k := rfl
      rw [h2]
      simp [hk]
  have hds : doneSum (decrement_counter c.user_id c.typ
      (refund_coins c.user_id c.cost (mark_conversion_failed cid db))) k
      = doneSum db k - doneCost k c := by
    have h1 : doneSum (decrement_counter c.user_id c.typ
        (refund_coins c.user_id c.cost (mark_conversion_failed cid db))) k
        = doneSum (mark_conversion_failed cid db) k := by
      apply doneSum_congr
      rw [conversions_decrement]
      rfl
    rw [h1, doneSum_mark_failed cid db c h]
  rw [hcoins, hds]
  have hdc : doneCost k c = if k = c.user_id then c.cost else 0 := by
    unfold doneCost
    by_cases hk : c.user_id = k
    · subst hk
      simp [hd]
    · have hk2 : ¬ (k = c.user_id) := fun hh => hk hh.symm
      simp [hk, hk2]
  rw [hdc]
  by_cases hk : k = c.user_id <;> simp [hk]

/-- Coin plus outstanding-cost identity for a delivery-failure finalize
of a still-outstanding row. -/
theorem ledger_identity_deliverfail (db : DB) (cid : Nat) (c : ConvRow)
    (h : db.conversions.get? cid = some c) (hd : c.status = ConvStatus.done)
    (hu : (db.users c.user_id).isSome = true) (k : Nat) :
    coinsOf (async_finalize_and_update c.user_id c.typ c.cost (some cid)
        true false false "" db).1 k
      + doneSum (async_finalize_and_update c.user_id c.typ c.cost (some cid)
        true false false "" db).1 k
      = coinsOf db k + doneSum db k := by
  rw [finalize_deliverfail_eq]
  have hcoins : coinsOf (mark_conversion_refunded cid (decrement_counter c.user_id c.typ
      (refund_coins c.user_id c.cost db))) k
      = coinsOf db k + (if k = c.user_id then c.cost else 0) := by
    have h0 : coinsOf (mark_conversion_refunded cid (decrement_counter c.user_id c.typ
        (refund_coins c.user_id c.cost db))) k
        = coinsOf (decrement_counter c.user_id c.typ
            (refund_coins c.user_id c.cost db)) k := rfl
    rw [h0, coinsOf_decrement]
    by_cases hk : k = c.user_id
    · subst hk
      rw [refund_coins, coinsOf_add_coins_self _ _ _ hu]
      simp
    · rw [refund_coins, coinsOf_add_coins_other _ _ _ _ hk]
      simp [hk]
  have hget : (decrement_counter c.user_id c.typ
      (refund_coins c.user_id c.cost db)).conversions.get? cid = some c := by
    rw [conversions_decrement]
    exact h
  have hds : doneSum (mark_conversion_refunded cid (decrement_counter c.user_id c.typ
      (refund_coins c.user_id c.cost db))) k
      = doneSum db k - doneCost k c := by
    rw [doneSum_mark_refunded cid _ c hget]
    congr 1
    apply doneSum_congr
    rw [conversions_decrement]
    rfl
  rw [hcoins, hds]
  have hdc : doneCost k c = if k = c.user_id then c.cost else 0 := by
    unfold doneCost
    by_cases hk : c.user_id = k
    · subst hk
      simp [hd]
    · have hk2 : ¬ (k = c.user_id) := fun hh => hk hh.symm
      simp [hk, hk2]
  rw [hdc]
  by_cases hk : k = c.user_id <;> simp [hk]

theorem convUsersExist_updateUser (uid : Nat) (f : UserRow → UserRow) (db : DB)
    (h : ConvUsersExist db) : ConvUsersExist (updateUser uid f db) := by
  intro c hc
  rw [isSome_updateUser]
  exact h c hc

theorem convUsersExist_decrement (uid : Nat) (typ : MediaKind) (db : DB)
    (h : ConvUsersExist db) : ConvUsersExist (decrement_counter uid typ db) := by
  cases typ <;> exact convUsersExist_updateUser _ _ _ h

theorem convUsersExist_mark_failed (cid : Nat) (db : DB)
    (h : ConvUsersExist db) : ConvUsersExist (mark_conversion_failed cid db) := by
  intro c hc
  rcases mem_updateAt _ _ _ _ hc with hm | ⟨a, ha, rfl⟩
  · exact h c hm
  · exact h a ha

theorem convUsersExist_mark_refunded (cid : Nat) (db : DB)
    (h : ConvUsersExist db) : ConvUsersExist (mark_conversion_refunded cid db) := by
  intro c hc
  rcases mem_updateAt _ _ _ _ hc with hm | ⟨a, ha, rfl⟩
  · exact h c hm
  · exact h a ha

theorem convUsersExist_router (cfg : Config) (now uid : Nat) (typ : MediaKind)
    (q : Nat) (t : String) (db : DB) (h : ConvUsersExist db) :
    ConvUsersExist (callback_router cfg now uid typ q t db).1 := by
  rcases callback_router_cases cfg now uid typ q t db with he | ⟨u, hu, hlt, he⟩
  · rw [he]; exact h
  · rw [he]
    intro c hc
    have hconv : (log_conversion uid t typ q (compute_cost typ q)
        (increment_counter uid typ
          (set_user_last_conversion now uid
            (bump_user_daily_count now uid
              (updateUser uid
                (fun v => { v with coins := v.coins - compute_cost typ q }) db))))).1.conversions
        = db.conversions ++
          [{ user_id := uid, title := t, typ := typ, quality := q
             cost := compute_cost typ q, status := .done, refunded := false }] := by
      show (increment_counter uid typ
          (set_user_last_conversion now uid
            (bump_user_daily_count now uid
              (updateUser uid
                (fun v => { v with coins := v.coins - compute_cost typ q }) db)))).conversions
          ++ _ = _
      rw [conversions_chain]
    rw [hconv] at hc
    have husers : ∀ k2, ((log_conversion uid t typ q (compute_cost typ q)
        (increment_counter uid typ
          (set_user_last_conversion now uid
            (bump_user_daily_count now uid
              (updateUser uid
                (fun v => { v with coins := v.coins - compute_cost typ q }) db))))).1.users k2)
        = (increment_counter uid typ
            (set_user_last_conversion now uid
              (bump_user_daily_count now uid
                (updateUser uid
                  (fun v => { v with coins := v.coins - compute_cost typ q }) db)))).users k2 :=
      fun k2 => rfl
    rw [husers]
    rcases List.mem_append.mp hc with hm | hm
    · exact isSome_chain now uid typ _ db c.user_id (h c hm)
    · have : c.user_id = uid := by
        rcases List.mem_singleton.mp hm with rfl
        rfl
      rw [this]
      exact isSome_chain now uid typ _ db uid (by rw [hu]; rfl)

/-- One ledger operation preserves well-formedness and the per-account
identity between coins and outstanding job costs. -/
theorem ledger_step (cfg : Config) (db : DB) (op : LedgerOp) (h : ConvUsersExist db) :
    ConvUsersExist (applyLedgerOp cfg db op)
    ∧ ∀ k, coinsOf (applyLedgerOp cfg db op) k + doneSum (applyLedgerOp cfg db op) k
        = coinsOf db k + doneSum db k := by
  cases op with
  | admitOp now uid typ q t =>
    exact ⟨convUsersExist_router cfg now uid typ q t db h,
      fun k => ledger_identity_router cfg now uid typ q t db k⟩
  | prodFailOp cid diag =>
    show ConvUsersExist (applyLedgerOp cfg db (.prodFailOp cid diag)) ∧ _
    cases hc : db.conversions.get? cid with
    | none =>
      simp only [applyLedgerOp, hc]
      exact ⟨h, fun k => trivial⟩
    | some c =>
      by_cases hd : c.status = ConvStatus.done
      · have hu : (db.users c.user_id).isSome = true := h c (List.get?_mem hc)
        simp only [applyLedgerOp, hc, hd, if_true]
        constructor
        · rw [finalize_prodfail_eq]
          exact convUsersExist_decrement _ _ _
            (convUsersExist_updateUser _ _ _ (convUsersExist_mark_failed cid db h))
        · intro k
          exact ledger_identity_prodfail db cid c diag hc hd hu k
      · simp only [applyLedgerOp, hc, hd, if_false]
        exact ⟨h, fun k => trivial⟩
  | deliverFailOp cid =>
    show ConvUsersExist (applyLedgerOp cfg db (.deliverFailOp cid)) ∧ _
    cases hc : db.conversions.get? cid with
    | none =>
      simp only [applyLedgerOp, hc]
      exact ⟨h, fun k => trivial⟩
    | some c =>
      by_cases hd : c.status = ConvStatus.done
      · have hu : (db.users c.user_id).isSome = true := h c (List.get?_mem hc)
        simp only [applyLedgerOp, hc, hd, if_true]
        constructor
        · rw [finalize_deliverfail_eq]
          exact convUsersExist_mark_refunded _ _
            (convUsersExist_decrement _ _ _ (convUsersExist_updateUser _ _ _ h))
        · intro k
          exact ledger_identity_deliverfail db cid c hc hd hu k
      · simp only [applyLedgerOp, hc, hd, if_false]
        exact ⟨h, fun k => trivial⟩

/-- The identity extends to whole operation sequences. -/
theorem runLedger_identity (cfg : Config) (ops : List LedgerOp) (db : DB)
    (h : ConvUsersExist db) :
    ConvUsersExist (runLedger cfg db ops)
    ∧ ∀ k, coinsOf (runLedger cfg db ops) k + doneSum (runLedger cfg db ops) k
        = coinsOf db k + doneSum db k := by
  induction ops generalizing db with
  | nil => exact ⟨h, fun k => rfl⟩
  | cons op rest ih =>
    have hs := ledger_step cfg db op h
    obtain ⟨hw, hid⟩ := ih (applyLedgerOp cfg db op) hs.1
    refine ⟨hw, fun k => ?_⟩
    have h1 := hid k
    have h2 := hs.2 k
    simp only [runLedger] at h1 ⊢
    omega

/-- Sample store for witnesses: account 7 with 100 coins, blank
counters and rate state, and no conversions. -/
def sampleDB : DB :=
  { users := fun k =>
      if k = 7 then
        some { coins := 100, music_count := 0, video_count := 0
               daily_count := 0, daily_count_date := none, last_conversion_at := none }
      else none
    conversions := [] }

/-- Default tunables of the source: 10 conversions per day, 60 second
cooldown (lines 55-56). -/
def sampleCfg : Config := { DAILY_LIMIT_PER_USER := 10, COOLDOWN_SECONDS := 60 }

theorem countersOkAt_updateUser (uid2 : Nat) (f : UserRow → UserRow) (db : DB)
    (uid : Nat)
    (hf : ∀ u, 0 ≤ u.music_count → 0 ≤ u.video_count →
        0 ≤ (f u).music_count ∧ 0 ≤ (f u).video_count)
    (h : countersOkAt db uid = true) :
    countersOkAt (updateUser uid2 f db) uid = true := by
  unfold countersOkAt at *
  by_cases hk : uid = uid2
  · subst hk
    rw [updateUser_users_self]
    cases hu : db.users uid with
    | none => rfl
    | some u =>
      rw [hu] at h
      simp only [Option.map_some']
      simp only [Bool.and_eq_true, decide_eq_true_eq] at h ⊢
      exact hf u h.1 h.2
  · rw [updateUser_users_other _ _ _ _ hk]
    exact h

theorem counterStep_ok (db : DB) (op : CounterOp) (uid : Nat)
    (h : countersOkAt db uid = true) :
    countersOkAt (applyCounterOp db op) uid = true := by
  cases op with
  | incOp u2 typ =>
    cases typ with
    | audio =>
      apply countersOkAt_updateUser _ _ _ _ _ h
      intro u h1 h2
      exact ⟨by simp; omega, h2⟩
    | video =>
      apply countersOkAt_updateUser _ _ _ _ _ h
      intro u h1 h2
      exact ⟨h1, by simp; omega⟩
  | decOp u2 typ =>
    cases typ with
    | audio =>
      apply countersOkAt_updateUser _ _ _ _ _ h
      intro u h1 h2
      refine ⟨?_, h2⟩
      by_cases hm : 0 < u.music_count
      · simp [hm]
        omega
      · simp [hm]
    | video =>
      apply countersOkAt_updateUser _ _ _ _ _ h
      intro u h1 h2
      refine ⟨h1, ?_⟩
      by_cases hm : 0 < u.video_count
      · simp [hm]
        omega
      · simp [hm]

/-- C1: for every account and every finite sequence of admission,
production-failure-refund and delivery-failure-refund operations, the
resulting balance equals the initial balance minus the sum of the costs
of that accounts conversions whose row still carries the
creation-default status done - the status a job keeps through its
queued, running and delivered stages - while refunded and failed rows
contribute nothing: each refund restored exactly the debited cost,
exactly once. -/
theorem C1_ledger_balance (cfg : Config) (ops : List LedgerOp) (db0 : DB) (uid : Nat)
    (hinit : db0.conversions = []) :
    coinsOf (runLedger cfg db0 ops) uid
      = coinsOf db0 uid - doneSum (runLedger cfg db0 ops) uid := by
  have hwf : ConvUsersExist db0 := by
    intro c hc
    rw [hinit] at hc
    simp at hc
  have h := (runLedger_identity cfg ops db0 hwf).2 uid
  have h0 : doneSum db0 uid = 0 := by
    unfold doneSum
    rw [hinit]
    rfl
  omega

/-- Witness for C1: account 7 admits an audio job and its production
fails; the balance identity holds at the end. -/
theorem C1_ledger_balance_witness :
    coinsOf (runLedger sampleCfg sampleDB
        [LedgerOp.admitOp 1000000 7 MediaKind.audio 128 "song",
         LedgerOp.prodFailOp 0 "Error: boom"]) 7
      = coinsOf sampleDB 7
        - doneSum (runLedger sampleCfg sampleDB
            [LedgerOp.admitOp 1000000 7 MediaKind.audio 128 "song",
             LedgerOp.prodFailOp 0 "Error: boom"]) 7 :=
  C1_ledger_balance sampleCfg _ sampleDB 7 rfl

/-- C4: whenever the admission path rejects - daily limit, cooldown, or
insufficient funds - the store is left exactly as it was: balance,
lifetime kind counters, daily rate-window count and date, and
last-conversion timestamp of the owner are all unchanged. -/
theorem C4_reject_no_mutation (cfg : Config) (now uid : Nat) (typ : MediaKind)
    (q : Nat) (t : String) (db : DB)
    (h : (callback_router cfg now uid typ q t db).2.isAdmitted = false) :
    (callback_router cfg now uid typ q t db).1 = db := by
  by_cases hd : cfg.DAILY_LIMIT_PER_USER ≤ effectiveDailyCount now uid db
  · rw [callback_router_daily cfg now uid typ q t db hd]
  · by_cases hcool : ∃ l, (get_user_rate_info uid db).2.2 = some l
        ∧ (now : Int) - (l : Int) < cfg.COOLDOWN_SECONDS
    · obtain ⟨l, hl, hc⟩ := hcool
      rw [callback_router_cooldown cfg now uid typ q t db l hd hl hc]
    · have hc : ∀ l, (get_user_rate_info uid db).2.2 = some l →
          ¬ ((now : Int) - (l : Int) < cfg.COOLDOWN_SECONDS) :=
        fun l hl hlt => hcool ⟨l, hl, hlt⟩
      rw [callback_router_commit cfg now uid typ q t db hd hc] at h ⊢
      rcases admission_commit_cases now uid typ q t (compute_cost typ q) db with he |
        ⟨u, hu, hlt, he⟩
      · rw [he]
      · rw [he] at h
        simp [AdmitResult.isAdmitted] at h

/-- Witness for C4: account 7 with 100 coins requests a 1080p video
costing 120, is rejected with insufficient funds, and the store is
unchanged. -/
theorem C4_reject_no_mutation_witness :
    (callback_router sampleCfg 1000000 7 MediaKind.video 1080 "clip" sampleDB).2
      = AdmitResult.insufficientFunds
    ∧ (callback_router sampleCfg 1000000 7 MediaKind.video 1080 "clip" sampleDB).1
      = sampleDB :=
  ⟨by decide,
   C4_reject_no_mutation sampleCfg 1000000 7 MediaKind.video 1080 "clip" sampleDB
     (by decide)⟩

/-- C10: the lifetime kind counters never go negative: starting from
nonnegative counters, any sequence of admission increments and
refund-driven clamped decrements - even more decrements than prior
increments - leaves both counters of every account nonnegative. -/
theorem C10_counters_nonneg (db0 : DB) (ops : List CounterOp) (uid : Nat)
    (h : countersOkAt db0 uid = true) :
    countersOkAt (runCounterOps db0 ops) uid = true := by
  induction ops generalizing db0 with
  | nil => exact h
  | cons op rest ih => exact ih (applyCounterOp db0 op) (counterStep_ok db0 op uid h)

/-- Witness for C10: four decrements against a single increment still
leave the counters of account 7 nonnegative. -/
theorem C10_counters_nonneg_witness :
    countersOkAt (runCounterOps sampleDB
      [CounterOp.decOp 7 MediaKind.audio, CounterOp.decOp 7 MediaKind.audio,
       CounterOp.incOp 7 MediaKind.audio, CounterOp.decOp 7 MediaKind.audio,
       CounterOp.decOp 7 MediaKind.video]) 7 = true :=
  C10_counters_nonneg sampleDB _ 7 (by decide)

/-- Lifetime counter of the given kind (music_count or video_count). -/
def counterOf (typ : MediaKind) (u : UserRow) : Int :=
  match typ with
  | .audio => u.music_count
  | .video => u.video_count

theorem counterOf_set_coins (typ : MediaKind) (u : UserRow) (x : Int) :
    counterOf typ { u with coins := x } = counterOf typ u := by
  cases typ <;> rfl

theorem users_decrement_self (uid : Nat) (typ : MediaKind) (db : DB) (u : UserRow)
    (hu : db.users uid = some u) (h : 1 ≤ counterOf typ u) :
    ∃ u2, (decrement_counter uid typ db).users uid = some u2
      ∧ u2.coins = u.coins ∧ counterOf typ u2 = counterOf typ u - 1 := by
  cases typ with
  | audio =>
    refine ⟨{ u with music_count := u.music_count - 1 }, ?_, rfl, rfl⟩
    have h2 : (1 : Int) ≤ u.music_count := h
    have hpos : 0 < u.music_count := by omega
    simp only [decrement_counter, updateUser_users_self, hu, Option.map_some']
    simp [hpos]
  | video =>
    refine ⟨{ u with video_count := u.video_count - 1 }, ?_, rfl, rfl⟩
    have h2 : (1 : Int) ≤ u.video_count := h
    have hpos : 0 < u.video_count := by omega
    simp only [decrement_counter, updateUser_users_self, hu, Option.map_some']
    simp [hpos]

theorem convStatus_congr (db1 db2 : DB) (h : db1.conversions = db2.conversions)
    (cid : Nat) : convStatus db1 cid = convStatus db2 cid := by
  unfold convStatus
  rw [h]

/-- Concrete store right after a successful admission: account 7 paid
20 coins (100 to 80) for audio job 0, counter bumped to 1, rate window
stamped; the job row carries the creation-default status done. -/
def dbC6 : DB :=
  { users := fun k =>
      if k = 7 then
        some { coins := 80, music_count := 1, video_count := 0
               daily_count := 1, daily_count_date := some 11, last_conversion_at := some 950000 }
      else none
    conversions := [{ user_id := 7, title := "song", typ := MediaKind.audio, quality := 128
                      cost := 20, status := ConvStatus.done, refunded := false }] }

/-- C7: for a job whose production succeeded but whose delivery (file
send) failed: when the refund block runs, the cost returns to the
owners balance, the lifetime counter of the kind drops by exactly one,
the row is marked refunded and the owner receives the refund notice;
when the refund call itself throws, the store is left untouched - in
particular the row is not marked refunded - and the owner is told that
manual intervention is needed. -/
theorem C7_delivery_fail_refund (uid : Nat) (typ : MediaKind) (cost : Int)
    (cid : Nat) (diag : String) (db : DB) (u : UserRow) (c : ConvRow)
    (hu : db.users uid = some u) (hcnt : 1 ≤ counterOf typ u)
    (hc : db.conversions.get? cid = some c) :
    ((async_finalize_and_update uid typ cost (some cid) true false false diag db).1.users
        uid).map UserRow.coins = some (u.coins + cost)
    ∧ ((async_finalize_and_update uid typ cost (some cid) true false false diag db).1.users
        uid).map (counterOf typ) = some (counterOf typ u - 1)
    ∧ convStatus (async_finalize_and_update uid typ cost (some cid)
        true false false diag db).1 cid = some ConvStatus.refunded
    ∧ (async_finalize_and_update uid typ cost (some cid) true false false diag db).2
        = FinalNotice.refundNotice
    ∧ async_finalize_and_update uid typ cost (some cid) true false true diag db
        = (db, FinalNotice.contactAdmin) := by
  have href : (refund_coins uid cost db).users uid
      = some { u with coins := u.coins + cost } := by
    simp [refund_coins, add_coins, updateUser_users_self, hu]
  have hcnt2 : 1 ≤ counterOf typ { u with coins := u.coins + cost } := by
    rw [counterOf_set_coins]
    exact hcnt
  obtain ⟨u2, hu2, hco, hcn⟩ :=
    users_decrement_self uid typ (refund_coins uid cost db) _ href hcnt2
  have h1 : (async_finalize_and_update uid typ cost (some cid) true false false diag db).1
      = mark_conversion_refunded cid
          (decrement_counter uid typ (refund_coins uid cost db)) :=
    finalize_deliverfail_eq uid typ cost cid diag db
  refine ⟨?_, ?_, ?_, rfl, rfl⟩
  · rw [h1]
    show ((decrement_counter uid typ (refund_coins uid cost db)).users uid).map
        UserRow.coins = _
    rw [hu2]
    simp [hco]
  · rw [h1]
    show ((decrement_counter uid typ (refund_coins uid cost db)).users uid).map
        (counterOf typ) = _
    rw [hu2]
    simp only [Option.map_some']
    rw [hcn, counterOf_set_coins]
  · rw [h1]
    apply convStatus_mark_refunded_self
    rw [conversions_decrement]
    exact hc

/-- Witness for C7 at a concrete store: delivery of job 0 of account 7
fails, the refund restores the cost and marks the row refunded, and the
throwing variant changes nothing. -/
theorem C7_delivery_fail_refund_witness :
    ((async_finalize_and_update 7 MediaKind.audio 20 (some 0) true false false ""
        dbC6).1.users 7).map UserRow.coins = some (80 + 20)
    ∧ ((async_finalize_and_update 7 MediaKind.audio 20 (some 0) true false false ""
        dbC6).1.users 7).map (counterOf MediaKind.audio) = some (1 - 1)
    ∧ convStatus (async_finalize_and_update 7 MediaKind.audio 20 (some 0)
        true false false "" dbC6).1 0 = some ConvStatus.refunded
    ∧ (async_finalize_and_update 7 MediaKind.audio 20 (some 0) true false false ""
        dbC6).2 = FinalNotice.refundNotice
    ∧ async_finalize_and_update 7 MediaKind.audio 20 (some 0) true false true "" dbC6
        = (dbC6, FinalNotice.contactAdmin) :=
  C7_delivery_fail_refund 7 MediaKind.audio 20 0 "" dbC6
    { coins := 80, music_count := 1, video_count := 0
      daily_count := 1, daily_count_date := some 11, last_conversion_at := some 950000 }
    { user_id := 7, title := "song", typ := MediaKind.audio, quality := 128
      cost := 20, status := ConvStatus.done, refunded := false }
    (by decide) (by decide) (by decide)

/-- C8: for a job whose production fails (no artifact produced): the row
is marked failed, the owners balance is restored by exactly the jobs
cost, the kind counter drops by exactly one, and the owner is notified
with the diagnostic text of the operation. -/
theorem C8_production_fail (uid : Nat) (typ : MediaKind) (cost : Int)
    (cid : Nat) (diag : String) (db : DB) (u : UserRow) (c : ConvRow)
    (hu : db.users uid = some u) (hcnt : 1 ≤ counterOf typ u)
    (hc : db.conversions.get? cid = some c) :
    ((async_finalize_and_update uid typ cost (some cid) false false false diag db).1.users
        uid).map UserRow.coins = some (u.coins + cost)
    ∧ ((async_finalize_and_update uid typ cost (some cid) false false false diag db).1.users
        uid).map (counterOf typ) = some (counterOf typ u - 1)
    ∧ convStatus (async_finalize_and_update uid typ cost (some cid)
        false false false diag db).1 cid = some ConvStatus.failed
    ∧ (async_finalize_and_update uid typ cost (some cid) false false false diag db).2
        = FinalNotice.conversionFailed diag := by
  have humark : (mark_conversion_failed cid db).users uid = some u := hu
  have href : (refund_coins uid cost (mark_conversion_failed cid db)).users uid
      = some { u with coins := u.coins + cost } := by
    simp [refund_coins, add_coins, updateUser_users_self, humark]
  have hcnt2 : 1 ≤ counterOf typ { u with coins := u.coins + cost } := by
    rw [counterOf_set_coins]
    exact hcnt
  obtain ⟨u2, hu2, hco, hcn⟩ :=
    users_decrement_self uid typ (refund_coins uid cost (mark_conversion_failed cid db))
      _ href hcnt2
  have h1 : (async_finalize_and_update uid typ cost (some cid) false false false diag db).1
      = decrement_counter uid typ
          (refund_coins uid cost (mark_conversion_failed cid db)) :=
    finalize_prodfail_eq uid typ cost cid diag db
  refine ⟨?_, ?_, ?_, rfl⟩
  · rw [h1, hu2]
    simp [hco]
  · rw [h1, hu2]
    simp only [Option.map_some']
    rw [hcn, counterOf_set_coins]
  · rw [h1]
    have h2 : convStatus (decrement_counter uid typ
        (refund_coins uid cost (mark_conversion_failed cid db))) cid
        = convStatus (mark_conversion_failed cid db) cid := by
      apply convStatus_congr
      rw [conversions_decrement]
      rfl
    rw [h2]
    exact convStatus_mark_failed_self cid db c hc

/-- Witness for C8 at a concrete store: production of job 0 of account
7 fails; cost restored, counter decremented, row failed, diagnostic
delivered. -/
theorem C8_production_fail_witness :
    ((async_finalize_and_update 7 MediaKind.audio 20 (some 0) false false false
        "Error: boom" dbC6).1.users 7).map UserRow.coins = some (80 + 20)
    ∧ ((async_finalize_and_update 7 MediaKind.audio 20 (some 0) false false false
        "Error: boom" dbC6).1.users 7).map (counterOf MediaKind.audio) = some (1 - 1)
    ∧ convStatus (async_finalize_and_update 7 MediaKind.audio 20 (some 0)
        false false false "Error: boom" dbC6).1 0 = some ConvStatus.failed
    ∧ (async_finalize_and_update 7 MediaKind.audio 20 (some 0) false false false
        "Error: boom" dbC6).2 = FinalNotice.conversionFailed "Error: boom" :=
  C8_production_fail 7 MediaKind.audio 20 0 "Error: boom" dbC6
    { coins := 80, music_count := 1, video_count := 0
      daily_count := 1, daily_count_date := some 11, last_conversion_at := some 950000 }
    { user_id := 7, title := "song", typ := MediaKind.audio, quality := 128
      cost := 20, status := ConvStatus.done, refunded := false }
    (by decide) (by decide) (by decide)

/-- Counterexample to C6 as stated: production of job 0 fails and the
refund completes - the 20 coins return to account 7, balance 80 to 100 -
yet the row is marked failed, not refunded.  The code marks the row
failed on every production failure (line 645) before it even attempts
the refund (lines 647-651), so failed does not mean the refund could
not be completed, and a production failure with a completed refund does
not yield refunded. -/
theorem C6_failed_despite_refund :
    ((async_finalize_and_update 7 MediaKind.audio 20 (some 0)
        false false false "Error: boom" dbC6).1.users 7).map UserRow.coins = some 100
    ∧ convStatus (async_finalize_and_update 7 MediaKind.audio 20 (some 0)
        false false false "Error: boom" dbC6).1 0 = some ConvStatus.failed
    ∧ ¬ convStatus (async_finalize_and_update 7 MediaKind.audio 20 (some 0)
        false false false "Error: boom" dbC6).1 0 = some ConvStatus.refunded := by
  refine ⟨?_, ?_, ?_⟩ <;> decide

/-- C6 amended: the record lifecycle the code actually implements.  A
row is created by log_conversion with the schema-default status done
(the record does not distinguish the queued, running and delivered
stages; those are in-memory phases of the queue worker).  Finalization
changes the status as follows: successful delivery leaves the store
untouched, so the row keeps status done; delivery failure whose refund
block completes marks it refunded; delivery failure whose refund call
throws leaves the store untouched; and production failure marks it
failed whether or not the refund completes. -/
theorem C6_status_transitions (uid : Nat) (typ : MediaKind) (cost : Int)
    (cid q : Nat) (t diag : String) (db : DB) (c : ConvRow) (rt : Bool)
    (hc : db.conversions.get? cid = some c) :
    convStatus (log_conversion uid t typ q cost db).1
        (log_conversion uid t typ q cost db).2 = some ConvStatus.done
    ∧ async_finalize_and_update uid typ cost (some cid) true true rt diag db
        = (db, FinalNotice.deliveredFile)
    ∧ convStatus (async_finalize_and_update uid typ cost (some cid)
        true false false diag db).1 cid = some ConvStatus.refunded
    ∧ async_finalize_and_update uid typ cost (some cid) true false true diag db
        = (db, FinalNotice.contactAdmin)
    ∧ convStatus (async_finalize_and_update uid typ cost (some cid)
        false false rt diag db).1 cid = some ConvStatus.failed := by
  refine ⟨?_, rfl, ?_, rfl, ?_⟩
  · unfold convStatus log_conversion
    simp only []
    rw [List.get?_concat_length]
    rfl
  · rw [finalize_deliverfail_eq]
    apply convStatus_mark_refunded_self
    rw [conversions_decrement]
    exact hc
  · cases rt with
    | true =>
      have h1 : (async_finalize_and_update uid typ cost (some cid)
          false false true diag db).1 = mark_conversion_failed cid db := rfl
      rw [h1]
      exact convStatus_mark_failed_self cid db c hc
    | false =>
      rw [finalize_prodfail_eq]
      have h2 : convStatus (decrement_counter uid typ
          (refund_coins uid cost (mark_conversion_failed cid db))) cid
          = convStatus (mark_conversion_failed cid db) cid := by
        apply convStatus_congr
        rw [conversions_decrement]
        rfl
      rw [h2]
      exact convStatus_mark_failed_self cid db c hc

/-- Witness for the amended C6 at the concrete store dbC6. -/
theorem C6_status_transitions_witness :
    convStatus (log_conversion 7 "tune" MediaKind.audio 128 20 dbC6).1
        (log_conversion 7 "tune" MediaKind.audio 128 20 dbC6).2 = some ConvStatus.done
    ∧ async_finalize_and_update 7 MediaKind.audio 20 (some 0) true true false "" dbC6
        = (dbC6, FinalNotice.deliveredFile)
    ∧ convStatus (async_finalize_and_update 7 MediaKind.audio 20 (some 0)
        true false false "" dbC6).1 0 = some ConvStatus.refunded
    ∧ async_finalize_and_update 7 MediaKind.audio 20 (some 0) true false true "" dbC6
        = (dbC6, FinalNotice.contactAdmin)
    ∧ convStatus (async_finalize_and_update 7 MediaKind.audio 20 (some 0)
        false false false "" dbC6).1 0 = some ConvStatus.failed :=
  C6_status_transitions 7 MediaKind.audio 20 0 128 "tune" "" dbC6
    { user_id := 7, title := "song", typ := MediaKind.audio, quality := 128
      cost := 20, status := ConvStatus.done, refunded := false }
    false (by decide)

/-- Successful debit runs the whole commit chain. -/
theorem admission_commit_success (now uid : Nat) (typ : MediaKind) (q : Nat)
    (t : String) (cost : Int) (db : DB) (u : UserRow)
    (hu : db.users uid = some u) (hlt : ¬ (u.coins < cost)) :
    admission_commit now uid typ q t cost db =
      ((log_conversion uid t typ q cost
        (increment_counter uid typ
          (set_user_last_conversion now uid
            (bump_user_daily_count now uid
              (updateUser uid (fun v => { v with coins := v.coins - cost }) db))))).1,
       .admitted (log_conversion uid t typ q cost
        (increment_counter uid typ
          (set_user_last_conversion now uid
            (bump_user_daily_count now uid
              (updateUser uid (fun v => { v with coins := v.coins - cost }) db))))).2) := by
  unfold admission_commit
  simp [deduct_coins, hu, hlt]

/-- The admission path answers DailyLimitExceeded exactly when the
reset-adjusted count has reached the limit. -/
theorem callback_router_daily_iff (cfg : Config) (now uid : Nat) (typ : MediaKind)
    (q : Nat) (t : String) (db : DB) :
    (callback_router cfg now uid typ q t db).2 = AdmitResult.dailyLimitExceeded
      ↔ cfg.DAILY_LIMIT_PER_USER ≤ effectiveDailyCount now uid db := by
  constructor
  · intro h
    by_cases hd : cfg.DAILY_LIMIT_PER_USER ≤ effectiveDailyCount now uid db
    · exact hd
    · exfalso
      by_cases hcool : ∃ l, (get_user_rate_info uid db).2.2 = some l
          ∧ (now : Int) - (l : Int) < cfg.COOLDOWN_SECONDS
      · obtain ⟨l, hl, hcc⟩ := hcool
        rw [callback_router_cooldown cfg now uid typ q t db l hd hl hcc] at h
        simp at h
      · have hcf : ∀ l, (get_user_rate_info uid db).2.2 = some l →
            ¬ ((now : Int) - (l : Int) < cfg.COOLDOWN_SECONDS) :=
          fun l hl hlt => hcool ⟨l, hl, hlt⟩
        rw [callback_router_commit cfg now uid typ q t db hd hcf] at h
        rcases admission_commit_cases now uid typ q t (compute_cost typ q) db with he |
          ⟨u, hu, hlt, he⟩
        · rw [he] at h
          simp at h
        · rw [he] at h
          simp at h
  · intro hd
    rw [callback_router_daily cfg now uid typ q t db hd]

theorem rate_info_updateUser_keep (uid2 : Nat) (f : UserRow → UserRow) (db : DB)
    (uid : Nat)
    (hf : ∀ u, (f u).daily_count = u.daily_count
      ∧ (f u).daily_count_date = u.daily_count_date
      ∧ (f u).last_conversion_at = u.last_conversion_at) :
    get_user_rate_info uid (updateUser uid2 f db) = get_user_rate_info uid db := by
  unfold get_user_rate_info
  by_cases hk : uid = uid2
  · subst hk
    rw [updateUser_users_self]
    cases db.users uid with
    | none => rfl
    | some u => simp [(hf u).1, (hf u).2.1, (hf u).2.2]
  · rw [updateUser_users_other _ _ _ _ hk]

/-- bump_user_daily_count on a row whose stored window date differs
from today resets the window to (1, today). -/
theorem bump_users_self_reset (now uid : Nat) (db : DB) (u : UserRow)
    (hu : db.users uid = some u) (hd : u.daily_count_date ≠ some (utc8Day now)) :
    (bump_user_daily_count now uid db).users uid
      = some { u with daily_count := 1, daily_count_date := some (utc8Day now) } := by
  unfold bump_user_daily_count
  simp only [hu]
  rw [if_pos hd, updateUser_users_self, hu]
  rfl

/-- Rate-window state after the whole commit chain when the stored date
differed from today: count 1, date today, last-conversion stamp now. -/
theorem rate_info_after_commit (now uid : Nat) (typ : MediaKind) (q : Nat)
    (t : String) (cost : Int) (db : DB) (u : UserRow)
    (hu : db.users uid = some u) (hd : u.daily_count_date ≠ some (utc8Day now)) :
    get_user_rate_info uid
      (log_conversion uid t typ q cost
        (increment_counter uid typ
          (set_user_last_conversion now uid
            (bump_user_daily_count now uid
              (updateUser uid (fun v => { v with coins := v.coins - cost }) db))))).1
      = (1, some (utc8Day now), some now) := by
  have h1 : (updateUser uid (fun v => { v with coins := v.coins - cost }) db).users uid
      = some { u with coins := u.coins - cost } := by
    rw [updateUser_users_self, hu]
    rfl
  have h2 := bump_users_self_reset now uid
    (updateUser uid (fun v => { v with coins := v.coins - cost }) db)
    { u with coins := u.coins - cost } h1 hd
  have h3 : (set_user_last_conversion now uid (bump_user_daily_count now uid
      (updateUser uid (fun v => { v with coins := v.coins - cost }) db))).users uid
      = some { u with
          coins := u.coins - cost
          daily_count := 1
          daily_count_date := some (utc8Day now)
          last_conversion_at := some now } := by
    unfold set_user_last_conversion
    rw [updateUser_users_self, h2]
    rfl
  have h4 : get_user_rate_info uid
      (log_conversion uid t typ q cost
        (increment_counter uid typ
          (set_user_last_conversion now uid
            (bump_user_daily_count now uid
              (updateUser uid (fun v => { v with coins := v.coins - cost }) db))))).1
      = get_user_rate_info uid
          (set_user_last_conversion now uid
            (bump_user_daily_count now uid
              (updateUser uid (fun v => { v with coins := v.coins - cost }) db))) := by
    have hl : get_user_rate_info uid
        (log_conversion uid t typ q cost
          (increment_counter uid typ
            (set_user_last_conversion now uid
              (bump_user_daily_count now uid
                (updateUser uid (fun v => { v with coins := v.coins - cost }) db))))).1
        = get_user_rate_info uid
            (increment_counter uid typ
              (set_user_last_conversion now uid
                (bump_user_daily_count now uid
                  (updateUser uid
                    (fun v => { v with coins := v.coins - cost }) db)))) := rfl
    rw [hl]
    cases typ <;> (apply rate_info_updateUser_keep; intro v; exact ⟨rfl, rfl, rfl⟩)
  rw [h4]
  unfold get_user_rate_info
  rw [h3]

/-- C9: the admission path rejects with DailyLimitExceeded exactly when
the owners daily count - read as zero when the stored window date
differs from the current UTC+8 calendar day - has reached the
configured limit; such a rejection leaves the store (stored count and
date included) untouched; and after the UTC+8 day rolls over, the next
admission of a previously rate-limited owner with an expired cooldown
and sufficient balance is admitted, with the stored window reset to
count 1 for the new day: so with limit 10 the eleventh same-day request
fails regardless of balance and succeeds the next day. -/
theorem C9_daily_limit (cfg : Config) (now uid : Nat) (typ : MediaKind)
    (q : Nat) (t : String) (db : DB) :
    ((callback_router cfg now uid typ q t db).2 = AdmitResult.dailyLimitExceeded
      ↔ cfg.DAILY_LIMIT_PER_USER ≤ effectiveDailyCount now uid db)
    ∧ ((callback_router cfg now uid typ q t db).2 = AdmitResult.dailyLimitExceeded →
        (callback_router cfg now uid typ q t db).1 = db)
    ∧ (∀ u, db.users uid = some u →
        u.daily_count_date ≠ some (utc8Day now) →
        (∀ l, u.last_conversion_at = some l →
          ¬ ((now : Int) - (l : Int) < cfg.COOLDOWN_SECONDS)) →
        0 < cfg.DAILY_LIMIT_PER_USER →
        ¬ (u.coins < compute_cost typ q) →
        (∃ cid, (callback_router cfg now uid typ q t db).2 = AdmitResult.admitted cid)
        ∧ get_user_rate_info uid (callback_router cfg now uid typ q t db).1
            = (1, some (utc8Day now), some now)) := by
  refine ⟨callback_router_daily_iff cfg now uid typ q t db, ?_, ?_⟩
  · intro h
    rw [callback_router_daily cfg now uid typ q t db
      ((callback_router_daily_iff cfg now uid typ q t db).mp h)]
  · intro u hu hdate hcool hpos hbal
    have heff : effectiveDailyCount now uid db = 0 := by
      unfold effectiveDailyCount get_user_rate_info
      rw [hu]
      simp [hdate]
    have hd : ¬ cfg.DAILY_LIMIT_PER_USER ≤ effectiveDailyCount now uid db := by
      rw [heff]
      omega
    have hcf : ∀ l, (get_user_rate_info uid db).2.2 = some l →
        ¬ ((now : Int) - (l : Int) < cfg.COOLDOWN_SECONDS) := by
      intro l hl
      apply hcool
      unfold get_user_rate_info at hl
      rw [hu] at hl
      exact hl
    rw [callback_router_commit cfg now uid typ q t db hd hcf,
      admission_commit_success now uid typ q t (compute_cost typ q) db u hu hbal]
    exact ⟨⟨_, rfl⟩,
      rate_info_after_commit now uid typ q t (compute_cost typ q) db u hu hdate⟩

/-- Account that has used up its ten conversions on UTC+8 day 100. -/
def u10 : UserRow :=
  { coins := 1000, music_count := 10, video_count := 0
    daily_count := 10, daily_count_date := some 100, last_conversion_at := some 0 }

/-- Store holding only that rate-limited account. -/
def db10 : DB :=
  { users := fun k => if k = 7 then some u10 else none, conversions := [] }

/-- Witness for C9: on day 100 (now = 8640000 s) account 7 with count
10 is rejected regardless of its 1000-coin balance and nothing changes;
on day 101 (now = 8726400 s) the same request is admitted and the
stored window becomes count 1 for day 101. -/
theorem C9_daily_limit_witness :
    (callback_router sampleCfg 8640000 7 MediaKind.audio 128 "s" db10).2
      = AdmitResult.dailyLimitExceeded
    ∧ (callback_router sampleCfg 8640000 7 MediaKind.audio 128 "s" db10).1 = db10
    ∧ (∃ cid, (callback_router sampleCfg 8726400 7 MediaKind.audio 128 "s" db10).2
        = AdmitResult.admitted cid)
    ∧ get_user_rate_info 7 (callback_router sampleCfg 8726400 7 MediaKind.audio 128 "s"
        db10).1 = (1, some 101, some 8726400) := by
  have h1 := C9_daily_limit sampleCfg 8640000 7 MediaKind.audio 128 "s" db10
  have h2 := C9_daily_limit sampleCfg 8726400 7 MediaKind.audio 128 "s" db10
  have hrej : (callback_router sampleCfg 8640000 7 MediaKind.audio 128 "s" db10).2
      = AdmitResult.dailyLimitExceeded := h1.1.mpr (by decide)
  have hsucc := h2.2.2 u10 (by decide) (by decide)
    (by
      intro l hl
      have hl0 : l = 0 := by
        have : some (0 : Nat) = some l := hl
        simpa using this.symm
      subst hl0
      decide)
    (by decide) (by decide)
  exact ⟨hrej, h1.2.1 hrej, hsucc.1, hsucc.2⟩

theorem get?_replicate_eq (n : Nat) (a : α) (j : Nat) (x : α)
    (h : (List.replicate n a).get? j = some x) : x = a := by
  induction n generalizing j with
  | zero => simp at h
  | succ m ih =>
    cases j with
    | zero =>
      rw [List.replicate_succ] at h
      simp only [List.get?] at h
      cases h
      rfl
    | succ j2 =>
      rw [List.replicate_succ] at h
      simp only [List.get?] at h
      exact ih j2 h

theorem execCount_replicate (n : Nat) : execCount (List.replicate n JPhase.queued) = 0 := by
  induction n with
  | zero => rfl
  | succ m ih =>
    rw [List.replicate_succ]
    unfold execCount at *
    rw [List.countP_cons]
    simp only [decide_eq_true_eq]
    rw [ih]
    simp

/-- C3: in every reachable scheduler state the number of jobs inside
the semaphore-guarded executor call - the RUNNING jobs - is at most the
configured Global Admission Gate capacity; a start step acquires the
gate only when strictly fewer than cap jobs hold it, and finishing the
executor call releases it unconditionally, whatever the outcome. -/
theorem C3_gate_bound (cap : Nat) (jobs : List Nat) (phases : List JPhase)
    (h : Reach cap jobs phases) : execCount phases ≤ cap := by
  induction h with
  | init =>
    rw [execCount_replicate]
    exact Nat.zero_le cap
  | step sp sq hr hs ih =>
    cases hs with
    | start i hq0 hfifo hsem =>
      have hcnt := countP_updateAt (fun p => decide (p = JPhase.executing)) sp i
        (fun _ => JPhase.executing) JPhase.queued hq0
      unfold execCount at *
      simp only [decide_eq_true_eq] at hcnt
      simp at hcnt
      omega
    | finishExec i hq0 =>
      have hcnt := countP_updateAt (fun p => decide (p = JPhase.executing)) sp i
        (fun _ => JPhase.finalizing) JPhase.executing hq0
      unfold execCount at *
      simp at hcnt
      omega
    | finishFinal i hq0 =>
      have hcnt := countP_updateAt (fun p => decide (p = JPhase.executing)) sp i
        (fun _ => JPhase.finished) JPhase.finalizing hq0
      unfold execCount at *
      simp at hcnt
      omega

/-- Every reachable scheduler state is per-owner FIFO-serialized. -/
theorem reach_fifoSerial (cap : Nat) (jobs : List Nat) (phases : List JPhase)
    (h : Reach cap jobs phases) : fifoSerial jobs phases := by
  induction h with
  | init =>
    intro i j p q hij ho hpi hpj hqn
    exact absurd (get?_replicate_eq _ _ _ _ hpj) hqn
  | step sp sq hr hs ih =>
    cases hs with
    | start k hq0 hfifo hsem =>
      intro i j p q hij ho hpi hpj hqn
      rw [get?_updateAt] at hpi hpj
      by_cases hjk : j = k
      · have hik : ¬ (i = k) := by omega
        rw [if_neg hik] at hpi
        refine hfifo i (by omega) ?_ p hpi
        rw [hjk] at ho
        exact ho
      · rw [if_neg hjk] at hpj
        by_cases hik : i = k
        · exfalso
          have ho2 : jobs.get? k = jobs.get? j := by
            rw [hik] at ho
            exact ho
          have h0 := ih k j JPhase.queued q (by omega) ho2 hq0 hpj hqn
          exact absurd h0 (by decide)
        · rw [if_neg hik] at hpi
          exact ih i j p q hij ho hpi hpj hqn
    | finishExec k hq0 =>
      intro i j p q hij ho hpi hpj hqn
      rw [get?_updateAt] at hpi hpj
      by_cases hjk : j = k
      · have hik : ¬ (i = k) := by omega
        rw [if_neg hik] at hpi
        have ho2 : jobs.get? i = jobs.get? k := by
          rw [hjk] at ho
          exact ho
        exact ih i k p JPhase.executing (by omega) ho2 hpi hq0 (by decide)
      · rw [if_neg hjk] at hpj
        by_cases hik : i = k
        · rw [hik, if_pos rfl, hq0, Option.map_some'] at hpi
          cases hpi
          decide
        · rw [if_neg hik] at hpi
          exact ih i j p q hij ho hpi hpj hqn
    | finishFinal k hq0 =>
      intro i j p q hij ho hpi hpj hqn
      rw [get?_updateAt] at hpi hpj
      by_cases hjk : j = k
      · have hik : ¬ (i = k) := by omega
        rw [if_neg hik] at hpi
        have ho2 : jobs.get? i = jobs.get? k := by
          rw [hjk] at ho
          exact ho
        exact ih i k p JPhase.finalizing (by omega) ho2 hpi hq0 (by decide)
      · rw [if_neg hjk] at hpj
        by_cases hik : i = k
        · rw [hik, if_pos rfl, hq0, Option.map_some'] at hpi
          cases hpi
          decide
        · rw [if_neg hik] at hpi
          exact ih i j p q hij ho hpi hpj hqn

/-- C2 amended: in every reachable scheduler state, no two jobs of the
same owner are simultaneously inside the executor call, and whenever a
later same-owner job has left the queue its predecessors have already
finished executing (FIFO, one at a time); their detached delivery or
refund finalization, however, may still be in flight. -/
theorem C2_owner_serial (cap : Nat) (jobs : List Nat) (phases : List JPhase)
    (h : Reach cap jobs phases) :
    (∀ i j, i < j → jobs.get? i = jobs.get? j →
      ¬ (phases.get? i = some JPhase.executing
        ∧ phases.get? j = some JPhase.executing))
    ∧ fifoSerial jobs phases := by
  have hf := reach_fifoSerial cap jobs phases h
  refine ⟨?_, hf⟩
  intro i j hij ho hboth
  have h2 := hf i j JPhase.executing JPhase.executing hij ho hboth.1 hboth.2 (by decide)
  exact absurd h2 (by decide)

/-- Reachable state of two jobs of one owner in which job 0 has
finished executing but its finalizer is still running while job 1 is
already executing: start 0, finish the executor call of 0, start 1. -/
theorem reach_fe : Reach 3 [0, 0] [JPhase.finalizing, JPhase.executing] := by
  have h0 : Reach 3 [0, 0] [JPhase.queued, JPhase.queued] := Reach.init
  have h1 : Reach 3 [0, 0] [JPhase.executing, JPhase.queued] :=
    Reach.step _ _ h0 (WorkerStep.start [JPhase.queued, JPhase.queued] 0 rfl
      (by
        intro j hj
        exact absurd hj (Nat.not_lt_zero j))
      (by decide))
  have h2 : Reach 3 [0, 0] [JPhase.finalizing, JPhase.queued] :=
    Reach.step _ _ h1 (WorkerStep.finishExec [JPhase.executing, JPhase.queued] 0 rfl)
  exact Reach.step _ _ h2 (WorkerStep.start [JPhase.finalizing, JPhase.queued] 1 rfl
    (by
      intro j hj ho p hp
      have hj0 : j = 0 := by omega
      subst hj0
      have hpf : JPhase.finalizing = p := by simpa using hp
      rw [hpf.symm]
      decide)
    (by decide))

/-- Counterexample to C2 as stated: with capacity 3 and two jobs of
owner 0, the scheduler reaches a state where job 1 is executing while
the finalization (delivery or refund) of job 0 has not completed - the
worker awaits only the executor call, and the finalizer is scheduled as
a detached task (line 567), so it does not finish before the owners
next job starts. -/
theorem C2_finalization_overlap : ¬ ownerFullySerial 3 [0, 0] := by
  intro h
  have h2 := h [JPhase.finalizing, JPhase.executing] reach_fe 0 1 JPhase.executing
    (by omega) rfl rfl (by decide)
  exact absurd h2 (by decide)

/-- Witness for C2 at the concrete reachable state of reach_fe. -/
theorem C2_owner_serial_witness :
    (∀ i j, i < j → ([0, 0] : List Nat).get? i = ([0, 0] : List Nat).get? j →
      ¬ ([JPhase.finalizing, JPhase.executing].get? i = some JPhase.executing
        ∧ [JPhase.finalizing, JPhase.executing].get? j = some JPhase.executing))
    ∧ fifoSerial [0, 0] [JPhase.finalizing, JPhase.executing] :=
  C2_owner_serial 3 [0, 0] [JPhase.finalizing, JPhase.executing] reach_fe

/-- Witness for C3 at the concrete reachable state of reach_fe. -/
theorem C3_gate_bound_witness :
    execCount [JPhase.finalizing, JPhase.executing] ≤ 3 :=
  C3_gate_bound 3 [0, 0] [JPhase.finalizing, JPhase.executing] reach_fe

/-- C5: the balance check-then-debit of admission is serialized with
itself per owner by the sequential update dispatch of the application:
when two admission requests for the same owner are issued concurrently
while the balance equals exactly the cost of one job, the dispatcher
runs them back to back in some order, and in either order exactly one
call succeeds - debiting the cost and leaving the balance at zero -
while the other reads the already-debited balance and is rejected with
insufficient funds; no producible interleaving lets both pass the
balance check against the same stale balance. -/
theorem C5_same_owner_serialized (c : Int) (hc : 0 < c) (first : Bool) :
    ((runRace c (raceInit c) (sequentialSchedule first)).a.result = some true
        ∧ (runRace c (raceInit c) (sequentialSchedule first)).b.result = some false
      ∨ (runRace c (raceInit c) (sequentialSchedule first)).a.result = some false
        ∧ (runRace c (raceInit c) (sequentialSchedule first)).b.result = some true)
    ∧ (runRace c (raceInit c) (sequentialSchedule first)).coins = 0 := by
  have hns : ¬ (c < c) := lt_irrefl c
  have hlt : c - c < c := by omega
  cases first <;>
    simp [sequentialSchedule, runRace, raceStep, deductStepOn, raceInit, hns, hlt, hc]

/-- Witness for C5 at cost 20 with call a dispatched first: a succeeds,
b is rejected, the balance ends at zero. -/
theorem C5_same_owner_serialized_witness :
    ((runRace 20 (raceInit 20) (sequentialSchedule true)).a.result = some true
        ∧ (runRace 20 (raceInit 20) (sequentialSchedule true)).b.result = some false
      ∨ (runRace 20 (raceInit 20) (sequentialSchedule true)).a.result = some false
        ∧ (runRace 20 (raceInit 20) (sequentialSchedule true)).b.result = some true)
    ∧ (runRace 20 (raceInit 20) (sequentialSchedule true)).coins = 0 :=
  C5_same_owner_serialized 20 (by decide) true

end Ambot
